import Mathlib

/-!
A verification development for the `mldata` library: a shallow embedding of
`mldata/dataset.py` (the `Dataset` and `Metadata` classes) and
`mldata/dataset_store.py` (the persistence layer), together with theorems
about the embedded operations.

Modelling conventions:
* Rows of a numpy array are modelled as `List Int`; an array is a `List Row`.
* Python `assert` failures and raised exceptions are modelled with `Except`.
* The md5 digest from `hashlib` is external to the repository; the content
  hash is therefore parameterised by an arbitrary `digest` function over the
  stream of rows fed to the hasher, and `hexdigest()[:8]` is `String.take 8`.
* A dataset directory is an association list from file names to file
  contents; `filename not in os.listdir(path)` is lookup failure.
* The name index kept in the configuration file is the `index` field of
  `Store`; a registered name resolves to its directory in `dirs`
  (`add_dataset` keeps an already existing directory, as `os.mkdir` is only
  called when the directory is absent).
* Infinite generators (`while True:` loops around a fixed yield sequence)
  are modelled by the list of values of one pass together with the function
  giving the k-th yielded value, namely the pass list indexed modulo its
  length.
-/

namespace MLData

/-- A row of a data or target array. -/
abbrev Row := List Int

/-- A data or target array: a list of rows. -/
abbrev Data := List Row

/-- `Metadata` from `mldata/dataset.py`. The `dictionary` field (always
`None`, the class is unimplemented) and the `preprocess` field (a function
value, touched by no claim) are not carried. -/
structure Metadata where
  name : String
  nb_examples : Nat
  splits : List Nat
  hash : String
deriving DecidableEq, Repr

/-- `Metadata.__init__`: the defaults `name="Default"`, `nb_examples=0`,
`splits=()`, `hash=""`. -/
def defaultMetadata : Metadata :=
  { name := "Default", nb_examples := 0, splits := [], hash := "" }

/-- The `Dataset` record: `meta_data`, `data` and the optional `target`. -/
structure Dataset where
  meta_data : Metadata
  data : Data
  target : Option Data
deriving DecidableEq, Repr

/-- The ways `Dataset.__init__` can raise: the first `assert` (on
`nb_examples`), the `IndexError` from `splits[-1]` on an empty tuple, and
the second `assert` (on `splits`). -/
inductive InitError where
  | assertNbExamples
  | indexError
  | assertSplits
deriving DecidableEq, Repr

/-- `Dataset.__init__`. The first assertion compares `len(data)` with
`meta_data.nb_examples`. The second assertion evaluates
`meta_data.splits[-1]` first (raising `IndexError` on an empty tuple) and
then checks `len(data) == splits[-1] or len(data) == sum(splits)`. No check
involves `target`. -/
def datasetInit (md : Metadata) (data : Data) (target : Option Data) :
    Except InitError Dataset :=
  if data.length = md.nb_examples then
    match md.splits.getLast? with
    | none => .error .indexError
    | some last =>
      if data.length = last ∨ data.length = md.splits.sum then
        .ok ⟨md, data, target⟩
      else .error .assertSplits
  else .error .assertNbExamples

/-- `Dataset.__len__`: returns `meta_data.nb_examples`. -/
def dlength (d : Dataset) : Nat := d.meta_data.nb_examples

/-- The stream of rows fed to the hasher in `Dataset.__hash__`: every row of
`data` in order, then, if a target is present, every row of `target`. -/
def hashStream (d : Dataset) : List Row :=
  d.data ++ (match d.target with | some t => t | none => [])

/-- `Dataset.__hash__`: feed `hashStream` into the digest and keep the first
8 characters of the hex digest. The digest itself (`hashlib.md5`) is
external and is therefore a parameter. -/
def datasetHash (digest : List Row → String) (d : Dataset) : String :=
  (digest (hashStream d)).take 8

/-- A concrete executable digest used to instantiate `datasetHash` in
witnesses and counterexamples (stands in for the external md5). -/
def toyDigest (rows : List Row) : String :=
  toString (rows.foldl (fun a r => r.foldl (fun b x => 2 * b + x.natAbs + 1) (2 * a + 1)) 0)

/-- `BUFFER_SIZE` from `mldata/dataset.py`. -/
def BUFFER_SIZE : Nat := 1000

/-- Fuel-driven helper for `pyRange`; `b - a` fuel always suffices for a
positive step. -/
def pyRangeAux : Nat → Nat → Nat → Nat → List Nat
  | 0, _, _, _ => []
  | fuel + 1, a, b, step =>
    if 0 < step ∧ a < b then a :: pyRangeAux fuel (a + step) b step else []

/-- Python `range(a, b, step)` for a positive step: the ascending values
`a, a + step, ...` strictly below `b`. (Python raises `ValueError` on a zero
step; all uses in the source are guarded to positive steps and every theorem
below carries that hypothesis, so the zero-step value here is irrelevant.) -/
def pyRange (a b step : Nat) : List Nat := pyRangeAux (b - a) a b step

/-- Python slicing `l[a:b]` for `0 ≤ a ≤ b` (out-of-range bounds clamp). -/
def listSlice {α : Type} (l : List α) (a b : Nat) : List α :=
  (l.drop a).take (b - a)

/-- One full pass of `Dataset.__iter__`: chunked by
`buffer = min(BUFFER_SIZE, len(self))` over `range(0, len(self.data),
buffer)` with `stop = min(idx + buffer, len(self))`; with a target the
chunk rows are zipped with the target rows, else each row is yielded as a
1-tuple (modelled as the pair with `none`). -/
def iterPass (d : Dataset) : List (Row × Option Row) :=
  let buffer := min BUFFER_SIZE (dlength d)
  match d.target with
  | some tg =>
    (pyRange 0 d.data.length buffer).flatMap fun idx =>
      let stop := min (idx + buffer) (dlength d)
      ((listSlice d.data idx stop).zip (listSlice tg idx stop)).map
        (fun p => (p.1, some p.2))
  | none =>
    (pyRange 0 d.data.length buffer).flatMap fun idx =>
      let stop := min (idx + buffer) (dlength d)
      (listSlice d.data idx stop).map (fun ex => (ex, none))

/-- The value produced by the k-th pull on the `Dataset.__iter__` generator:
the `while True:` loop repeats `iterPass` forever, so pull `k` returns the
pass element at index `k` modulo the pass length. -/
def iterSeq (d : Dataset) (k : Nat) : Row × Option Row :=
  (iterPass d).getD (k % (iterPass d).length) ([], none)

/-- The rows of a dataset paired with their targets when present: the
sequence `Dataset.__iter__` is expected to produce in one pass. -/
def rowsOf (d : Dataset) : List (Row × Option Row) :=
  match d.target with
  | some t => (d.data.zip t).map (fun p => (p.1, some p.2))
  | none => d.data.map (fun r => (r, none))

/-- The slice bounds `(i, min b (i + step))` for `i` ranging over
`range(a, b, step)`: the minibatch bounds produced inside one buffered
chunk of `_split_iterators` (and the chunk bounds themselves). -/
def sliceBounds (a b step : Nat) : List (Nat × Nat) :=
  (pyRange a b step).map (fun i => (i, min b (i + step)))

/-- One full pass of `Dataset._split_iterators(start, end, minibatch_size)`:
the list of `(i, j)` bounds of the yielded minibatch slices, chunked by
`buffer = min(BUFFER_SIZE, end - start)` with `stop = min(idx + buffer,
end)` and, inside a chunk, `j = min(stop, i + minibatch_size)`. -/
def splitPass (start e mbs : Nat) : List (Nat × Nat) :=
  let buffer := min BUFFER_SIZE (e - start)
  (pyRange start e buffer).flatMap fun idx =>
    let stop := min (idx + buffer) e
    (pyRange idx stop mbs).map (fun i => (i, min stop (i + mbs)))

/-- Bounds of the minibatch produced by the k-th pull on a
`_split_iterators` generator: the `while True:` loop repeats `splitPass`
forever. -/
def splitIterBounds (start e mbs k : Nat) : Nat × Nat :=
  (splitPass start e mbs).getD (k % (splitPass start e mbs).length) (start, start)

/-- The value yielded for given minibatch bounds: `(data[i:j], target[i:j])`
(the numpy `reshape` on the target slice only changes the shape, not the
row content, and is not modelled). -/
def splitYield (d : Dataset) (p : Nat × Nat) : Data × Option Data :=
  (listSlice d.data p.1 p.2, d.target.map (fun t => listSlice t p.1 p.2))

/-- The minibatch produced by the k-th pull on a `_split_iterators`
generator. -/
def splitIter (d : Dataset) (start e mbs k : Nat) : Data × Option Data :=
  splitYield d (splitIterBounds start e mbs k)

/-- `itertools.accumulate` with running sums starting at `acc`. -/
def accumulateFrom (acc : Nat) : List Nat → List Nat
  | [] => []
  | x :: r => (acc + x) :: accumulateFrom (acc + x) r

/-- `itertools.accumulate`: running sums. -/
def accumulate (l : List Nat) : List Nat := accumulateFrom 0 l

/-- The split normalization step of `get_splits_iterators`: when the sum of
the declared values equals the dataset length they are treated as per-split
counts and converted by running sum, otherwise they are kept as already
cumulative offsets. -/
def normalizeSplits (splits : List Nat) (len : Nat) : List Nat :=
  if splits.sum = len then accumulate splits else splits

/-- `Dataset.get_splits_iterators`: normalize the splits, assert that the
final value equals `len(self)` (where `sp[-1]` raises `IndexError` on an
empty list), and build one iterator per consecutive boundary pair from
`zip([0] + sp, sp)`. Each returned pair `(start, end)` stands for the
generator `_split_iterators(start, end, minibatch_size)` whose k-th yield
is `splitIter`. -/
def get_splits_iterators (d : Dataset) : Except InitError (List (Nat × Nat)) :=
  let sp := normalizeSplits d.meta_data.splits (dlength d)
  match sp.getLast? with
  | none => .error .indexError
  | some last =>
    if last = dlength d then .ok ((0 :: sp).zip sp)
    else .error .assertSplits

/-- `chainHolds a b l` states that the slice bounds in `l` tile the interval
`[a, b)` contiguously and in order: the first slice starts at `a`, every
slice is nonempty and ends within `b`, each next slice starts where the
previous one ended, and the last one ends exactly at `b`. -/
def chainHolds : Nat → Nat → List (Nat × Nat) → Bool
  | a, b, [] => a == b
  | a, b, (i, j) :: r => i == a && decide (a < j) && decide (j ≤ b) && chainHolds j b r

/-- The content of a file in a dataset directory: either a `.data` blob
written by `h5py` (the raw `data` array and, when present, the `targets`
array) or a pickled `.meta` record. -/
inductive FileContent where
  | blob (data : Data) (target : Option Data)
  | meta (md : Metadata)
deriving DecidableEq, Repr

/-- A dataset directory: an association list from file names to contents. -/
abbrev Dir := List (String × FileContent)

/-- First-match association-list lookup (`os.listdir` membership, file
open). -/
def alookup {α : Type} : List (String × α) → String → Option α
  | [], _ => none
  | (k, v) :: r, f => if k = f then some v else alookup r f

/-- The persistent state seen by `dataset_store`: the name index of the
configuration file and the directories of the dataset folder. -/
structure Store where
  index : List String
  dirs : List (String × Dir)
deriving DecidableEq, Repr

/-- `config.dataset_exists`: membership of the name in the index. -/
def dataset_exists (s : Store) (name : String) : Bool :=
  s.index.contains name

/-- `config.add_dataset`: create the directory only when absent (keeping an
existing one untouched) and register the name. -/
def add_dataset (s : Store) (name : String) : Store :=
  { index := name :: s.index,
    dirs := match alookup s.dirs name with
            | some _ => s.dirs
            | none => (name, []) :: s.dirs }

/-- The directory of a registered dataset name
(`config.get_dataset_path`). -/
def getDir (s : Store) (name : String) : Dir :=
  (alookup s.dirs name).getD []

/-- `_save_dataset`: write the blob `filename` holding `dataset.data` and
`dataset.target` only when no file of that name is in the directory
listing. -/
def saveDatasetFile (d : Dataset) (dir : Dir) (filename : String) : Dir :=
  match alookup dir filename with
  | some _ => dir
  | none => (filename, .blob d.data d.target) :: dir

/-- `_save_metadata`: pickle the metadata to `filename`, but only when no
file of that name is in the directory listing. -/
def saveMetadataFile (md : Metadata) (dir : Dir) (filename : String) : Dir :=
  match alookup dir filename with
  | some _ => dir
  | none => (filename, .meta md) :: dir

/-- `dataset_store.save`: register the name when missing, refresh
`meta_data.hash` from the content hash, write the blob `<hash>.data`
through `_save_dataset` and the record `<name>_<version_name>.meta` through
`_save_metadata`. -/
def save (digest : List Row → String) (s : Store) (d : Dataset)
    (version_name : String) : Store :=
  let dset_name := d.meta_data.name
  let s1 := if dataset_exists s dset_name then s else add_dataset s dset_name
  let dir := getDir s1 dset_name
  let dset_hash := datasetHash digest d
  let md := { d.meta_data with hash := dset_hash }
  let dir1 := saveDatasetFile ⟨md, d.data, d.target⟩ dir (md.hash ++ ".data")
  let dir2 := saveMetadataFile md dir1 (dset_name ++ "_" ++ version_name ++ ".meta")
  { s1 with dirs := (dset_name, dir2) :: s1.dirs }

/-- The exceptions `load` can surface: the `LookupError` raised for a
missing name or a missing `.meta` record, the unpickling failure on a file
that is not a pickled record, the `OSError` from `h5py` on a missing or
invalid blob, and the `Dataset` constructor exceptions. -/
inductive LoadError where
  | lookupError
  | unpicklingError
  | oSError
  | initError (e : InitError)
deriving DecidableEq, Repr

/-- `_load_from_file`: open `<name>.meta` (turning a missing file into
`LookupError`), open the blob named by the stored hash with `h5py`, read
the `data` field and the optional `targets` field, and construct the
`Dataset`. -/
def loadFromFile (dir : Dir) (name : String) : Except LoadError Dataset :=
  match alookup dir (name ++ ".meta") with
  | none => .error .lookupError
  | some (.blob _ _) => .error .unpicklingError
  | some (.meta md) =>
    match alookup dir (md.hash ++ ".data") with
    | none => .error .oSError
    | some (.meta _) => .error .oSError
    | some (.blob data tgt) => (datasetInit md data tgt).mapError .initError

/-- `dataset_store.load`: raise `LookupError` when the name is not in the
index, else read `<name>_<version_name>.meta` from the directory of the
name. (The `lazy` flag only selects the `h5py` driver and is not
modelled.) -/
def load (s : Store) (dset_name version_name : String) :
    Except LoadError Dataset :=
  if dataset_exists s dset_name then
    loadFromFile (getDir s dset_name) (dset_name ++ "_" ++ version_name)
  else .error .lookupError

/-- The number of data blobs in a directory (the `.data` files: by
construction `save` stores blob contents exactly under `.data` names). -/
def blobCount (dir : Dir) : Nat :=
  dir.countP (fun p => match p.2 with | .blob _ _ => true | _ => false)

/-- A directory already holding a version-1 metadata record (with its
consistent one-row blob) for the dataset name `ds`. -/
def exDirOld : Dir :=
  [("ds_v1.meta", .meta ⟨"ds", 1, [1], "oldhash"⟩),
   ("oldhash.data", .blob [[0]] none)]

/-- A store whose index already knows `ds`, pointing at `exDirOld`. -/
def exStoreOld : Store := ⟨["ds"], [("ds", exDirOld)]⟩

/-- A two-row dataset named `ds`, differing from the stale record of
`exDirOld` in `nb_examples`, `splits` and content. -/
def exDataset2 : Dataset := ⟨⟨"ds", 2, [2], ""⟩, [[1], [2]], none⟩

/-- C1: the claim says `save` overwrites an existing
`<name>_<version_name>.meta` record so that afterwards the file holds the
serialized current metadata. The code of `_save_metadata` only writes when
the file is absent: after `save exStoreOld exDataset2 "v1"` the record
`ds_v1.meta` still holds the stale metadata, which differs from the current
metadata of the saved dataset. -/
theorem save_keeps_stale_metadata_record :
    alookup (getDir (save toyDigest exStoreOld exDataset2 "v1") "ds") "ds_v1.meta"
      = some (.meta ⟨"ds", 1, [1], "oldhash"⟩)
    ∧ (⟨"ds", 1, [1], "oldhash"⟩ : Metadata)
        ≠ { exDataset2.meta_data with hash := datasetHash toyDigest exDataset2 } := by
  exact ⟨rfl, by decide⟩

/-- C2: the content hash is a pure function of the data and target contents
only: it is repeatable, two datasets with identical `data` and `target` but
arbitrary differing metadata hash identically, and the hash is the digest of
the stream of data rows followed by target rows, truncated to 8
characters. -/
theorem content_hash_depends_only_on_content
    (digest : List Row → String) (d1 d2 : Dataset)
    (hdata : d1.data = d2.data) (htarget : d1.target = d2.target) :
    datasetHash digest d1 = datasetHash digest d2
    ∧ datasetHash digest d1 = datasetHash digest d1
    ∧ datasetHash digest d1 = (digest (d1.data ++ d1.target.getD [])).take 8 := by
  refine ⟨?_, rfl, ?_⟩
  · simp only [datasetHash, hashStream, hdata, htarget]
  · simp only [datasetHash, hashStream]
    cases d1.target <;> rfl

/-- Witness for C2 at concrete inputs: same data and target, different
`name` and `splits`. -/
theorem content_hash_depends_only_on_content_witness :
    (⟨⟨"A", 2, [2], ""⟩, [[1], [2]], some [[3], [4]]⟩ : Dataset).data
        = (⟨⟨"B", 2, [1, 1], "x"⟩, [[1], [2]], some [[3], [4]]⟩ : Dataset).data
    ∧ (⟨⟨"A", 2, [2], ""⟩, [[1], [2]], some [[3], [4]]⟩ : Dataset).target
        = (⟨⟨"B", 2, [1, 1], "x"⟩, [[1], [2]], some [[3], [4]]⟩ : Dataset).target
    ∧ (datasetHash toyDigest ⟨⟨"A", 2, [2], ""⟩, [[1], [2]], some [[3], [4]]⟩
          = datasetHash toyDigest ⟨⟨"B", 2, [1, 1], "x"⟩, [[1], [2]], some [[3], [4]]⟩
        ∧ datasetHash toyDigest ⟨⟨"A", 2, [2], ""⟩, [[1], [2]], some [[3], [4]]⟩
          = datasetHash toyDigest ⟨⟨"A", 2, [2], ""⟩, [[1], [2]], some [[3], [4]]⟩
        ∧ datasetHash toyDigest ⟨⟨"A", 2, [2], ""⟩, [[1], [2]], some [[3], [4]]⟩
          = (toyDigest ([[1], [2]] ++ (some [[3], [4]] : Option Data).getD [])).take 8) :=
  ⟨rfl, rfl, content_hash_depends_only_on_content toyDigest _ _ rfl rfl⟩

/-- C6 counterexample: a dataset whose present target has a different
length than the data is constructed successfully — `Dataset.__init__` never
compares `len(target)` with `len(data)`, refuting the claim that such a
construction always fails. -/
theorem mismatched_target_is_accepted :
    datasetInit ⟨"Default", 2, [2], ""⟩ [[0], [1]] (some [[5]])
      = .ok ⟨⟨"Default", 2, [2], ""⟩, [[0], [1]], some [[5]]⟩
    ∧ ([[5]] : Data).length ≠ ([[0], [1]] : Data).length :=
  ⟨rfl, by decide⟩

/-- C6 amended: `Dataset.__init__` validates only the data length against
`nb_examples` and the splits; a present target of any length (matching or
not) is accepted whenever those checks pass. -/
theorem target_length_never_checked (md : Metadata) (data : Data)
    (target : Data) (hlen : data.length = md.nb_examples) (last : Nat)
    (hlast : md.splits.getLast? = some last)
    (hsp : data.length = last ∨ data.length = md.splits.sum) :
    datasetInit md data (some target) = .ok ⟨md, data, some target⟩ := by
  unfold datasetInit
  rw [if_pos hlen, hlast]
  exact if_pos hsp

/-- Witness for the amended C6: one data row against a two-row target. -/
theorem target_length_never_checked_witness :
    ([[0]] : Data).length = (⟨"Default", 1, [1], ""⟩ : Metadata).nb_examples
    ∧ (⟨"Default", 1, [1], ""⟩ : Metadata).splits.getLast? = some 1
    ∧ (([[0]] : Data).length = 1
        ∨ ([[0]] : Data).length = (⟨"Default", 1, [1], ""⟩ : Metadata).splits.sum)
    ∧ datasetInit ⟨"Default", 1, [1], ""⟩ [[0]] (some [[1], [2]])
        = .ok ⟨⟨"Default", 1, [1], ""⟩, [[0]], some [[1], [2]]⟩ :=
  ⟨rfl, rfl, Or.inl rfl,
    target_length_never_checked _ _ _ rfl 1 rfl (Or.inl rfl)⟩

/-- C8: `load` yields `LookupError` exactly when the dataset is absent:
either the name is not in the index, or the record
`<name>_<version>.meta` is not in the directory of the name; every other
outcome of `load` is a different exception or a returned dataset. -/
theorem load_lookup_error_iff (s : Store) (name version : String) :
    load s name version = .error .lookupError ↔
      (dataset_exists s name = false
        ∨ alookup (getDir s name) (name ++ "_" ++ version ++ ".meta") = none) := by
  unfold load loadFromFile
  by_cases hex : dataset_exists s name
  · simp only [hex, if_pos rfl, Bool.true_eq_false, false_or]
    cases hm : alookup (getDir s name) (name ++ "_" ++ version ++ ".meta") with
    | none => simp
    | some c =>
      cases c with
      | blob data target => simp
      | meta md =>
        simp only [reduceCtorEq, iff_false]
        cases hb : alookup (getDir s name) (md.hash ++ ".data") with
        | none => simp
        | some c2 =>
          cases c2 with
          | blob data tgt =>
            cases hi : datasetInit md data tgt with
            | ok d => simp [Except.mapError, hi]
            | error e => simp [Except.mapError, hi]
          | meta md2 => simp
  · simp [hex]

/-- C10 counterexample: with the default metadata (empty splits,
`nb_examples = 0`) and a one-row data array, construction raises the
`nb_examples` assertion, not `IndexError` — so the `IndexError` does not
occur regardless of the data length. -/
theorem default_metadata_nonempty_data_asserts :
    datasetInit defaultMetadata [[7]] none = .error .assertNbExamples
    ∧ InitError.assertNbExamples ≠ InitError.indexError :=
  ⟨rfl, by decide⟩

/-- C10 amended: whenever the splits are empty and the data length matches
`nb_examples` (in particular for empty data under the default metadata),
`Dataset.__init__` raises `IndexError` from `splits[-1]`; when the length
differs, the `nb_examples` assertion fires first instead. -/
theorem empty_splits_raise_index_error (md : Metadata) (data : Data)
    (target : Option Data) (hsp : md.splits = [])
    (hlen : data.length = md.nb_examples) :
    datasetInit md data target = .error .indexError := by
  unfold datasetInit
  rw [if_pos hlen, hsp]
  rfl

/-- Witness for the amended C10: the freshly constructed default metadata
with empty data. -/
theorem empty_splits_raise_index_error_witness :
    defaultMetadata.splits = []
    ∧ ([] : Data).length = defaultMetadata.nb_examples
    ∧ datasetInit defaultMetadata [] none = .error .indexError :=
  ⟨rfl, rfl, empty_splits_raise_index_error _ _ _ rfl rfl⟩

/-- `pyRangeAux` gives the same list under any two sufficient fuels. -/
theorem pyRangeAux_congr :
    ∀ (f g a b step : Nat), b - a ≤ f → b - a ≤ g →
      pyRangeAux f a b step = pyRangeAux g a b step := by
  intro f
  induction f with
  | zero =>
    intro g a b step hf hg
    cases g with
    | zero => rfl
    | succ g =>
      simp only [pyRangeAux]
      rw [if_neg]
      omega
  | succ f ih =>
    intro g a b step hf hg
    cases g with
    | zero =>
      simp only [pyRangeAux]
      rw [if_neg]
      omega
    | succ g =>
      simp only [pyRangeAux]
      by_cases hc : 0 < step ∧ a < b
      · rw [if_pos hc, if_pos hc]
        congr 1
        exact ih g (a + step) b step (by omega) (by omega)
      · rw [if_neg hc, if_neg hc]

/-- Unfolding `pyRange` when the interval is empty. -/
theorem pyRange_nil {a b step : Nat} (h : b ≤ a) : pyRange a b step = [] := by
  unfold pyRange
  have hz : b - a = 0 := by omega
  rw [hz]
  rfl

/-- Unfolding `pyRange` on a nonempty interval with a positive step. -/
theorem pyRange_cons {a b step : Nat} (hs : 0 < step) (hab : a < b) :
    pyRange a b step = a :: pyRange (a + step) b step := by
  unfold pyRange
  have h1 : b - a = (b - a - 1) + 1 := by omega
  rw [h1]
  simp only [pyRangeAux]
  rw [if_pos ⟨hs, hab⟩]
  congr 1
  exact pyRangeAux_congr (b - a - 1) (b - (a + step)) (a + step) b step
    (by omega) (le_refl _)

/-- An empty slice. -/
theorem listSlice_nil {α : Type} (l : List α) {a b : Nat} (h : b ≤ a) :
    listSlice l a b = [] := by
  unfold listSlice
  have hz : b - a = 0 := by omega
  rw [hz, List.take_zero]

/-- The full slice. -/
theorem listSlice_full {α : Type} (l : List α) : listSlice l 0 l.length = l := by
  unfold listSlice
  simp

/-- Adjacent slices concatenate. -/
theorem listSlice_append {α : Type} (l : List α) {a m b : Nat}
    (h1 : a ≤ m) (h2 : m ≤ b) :
    listSlice l a m ++ listSlice l m b = listSlice l a b := by
  unfold listSlice
  have hd : (l.drop a).drop (m - a) = l.drop m := by
    rw [List.drop_drop]
    congr 1
    omega
  rw [← hd, ← List.take_add]
  congr 1
  omega

/-- `take` distributes over `zip`. -/
theorem zip_take_eq {α β : Type} :
    ∀ (n : Nat) (l : List α) (t : List β),
      (l.zip t).take n = (l.take n).zip (t.take n) := by
  intro n
  induction n with
  | zero => intro l t; simp
  | succ n ih =>
    intro l t
    cases l with
    | nil => simp
    | cons x xs =>
      cases t with
      | nil => simp
      | cons y ys => simp [ih]

/-- `drop` distributes over `zip`. -/
theorem zip_drop_eq {α β : Type} :
    ∀ (n : Nat) (l : List α) (t : List β),
      (l.zip t).drop n = (l.drop n).zip (t.drop n) := by
  intro n
  induction n with
  | zero => intro l t; simp
  | succ n ih =>
    intro l t
    cases l with
    | nil => simp
    | cons x xs =>
      cases t with
      | nil => simp
      | cons y ys => simp [ih]

/-- Slicing distributes over `zip`. -/
theorem listSlice_zip {α β : Type} (l : List α) (t : List β) (a b : Nat) :
    listSlice (l.zip t) a b = (listSlice l a b).zip (listSlice t a b) := by
  unfold listSlice
  rw [zip_drop_eq, zip_take_eq]

/-- Mapping under a `flatMap`. -/
theorem flatMap_map_out {α β γ : Type} (l : List α) (g : α → List β)
    (f : β → γ) :
    (l.flatMap fun x => (g x).map f) = (l.flatMap g).map f := by
  induction l with
  | nil => simp
  | cons x xs ih => simp [ih]

/-- Reading a list in buffer-sized chunks concatenates back to the original
slice: the chunking of the buffered iterators is invisible in the produced
sequence. -/
theorem flatMap_slices {α : Type} (l : List α) (step : Nat) (hs : 0 < step) :
    ∀ (n a b : Nat), b - a ≤ n →
      ((pyRange a b step).flatMap fun idx =>
          listSlice l idx (min (idx + step) b))
        = listSlice l a b := by
  intro n
  induction n with
  | zero =>
    intro a b h
    rw [pyRange_nil (by omega), listSlice_nil l (by omega)]
    rfl
  | succ n ih =>
    intro a b h
    by_cases hab : a < b
    · rw [pyRange_cons hs hab, List.flatMap_cons]
      rcases le_or_lt (a + step) b with hle | hlt
      · rw [ih (a + step) b (by omega)]
        have hmin : min (a + step) b = a + step := by omega
        rw [hmin]
        exact listSlice_append l (by omega) hle
      · rw [pyRange_nil (by omega)]
        have hmin : min (a + step) b = b := by omega
        rw [hmin]
        simp
    · rw [pyRange_nil (by omega), listSlice_nil l (by omega)]
      rfl

/-- One pass of `Dataset.__iter__` yields exactly the rows (paired with
their targets when present) in row order: the buffering is invisible. -/
theorem iterPass_eq_rowsOf (d : Dataset)
    (hn : d.meta_data.nb_examples = d.data.length)
    (hpos : 0 < d.data.length)
    (htgt : ∀ t, d.target = some t → t.length = d.data.length) :
    iterPass d = rowsOf d := by
  have hbuf : 0 < min BUFFER_SIZE (dlength d) := by
    unfold dlength BUFFER_SIZE
    omega
  unfold iterPass rowsOf
  cases hT : d.target with
  | none =>
    simp only [dlength, hn] at hbuf ⊢
    rw [flatMap_map_out]
    rw [flatMap_slices d.data _ hbuf d.data.length 0 d.data.length (by omega)]
    rw [listSlice_full]
  | some t =>
    have ht := htgt t hT
    simp only [dlength, hn] at hbuf ⊢
    have hz : ∀ idx stop, (listSlice d.data idx stop).zip (listSlice t idx stop)
        = listSlice (d.data.zip t) idx stop := by
      intro idx stop
      rw [listSlice_zip]
    simp only [hz]
    rw [flatMap_map_out]
    rw [flatMap_slices (d.data.zip t) _ hbuf d.data.length 0 d.data.length (by omega)]
    have hlz : d.data.length = (d.data.zip t).length := by
      rw [List.length_zip, ht]
      omega
    rw [hlz, listSlice_full]

/-- C9: whole-dataset iteration cycles: one pass yields the rows (with
targets when present) in row order `0..n-1`, the pass has length `n`, and
the k-th pulled element equals the element at `k mod n`; the pull is
defined for every `k`, so the sequence never terminates. -/
theorem iter_cycles (d : Dataset)
    (hn : d.meta_data.nb_examples = d.data.length)
    (hpos : 0 < d.data.length)
    (htgt : ∀ t, d.target = some t → t.length = d.data.length) :
    iterPass d = rowsOf d
    ∧ (iterPass d).length = d.data.length
    ∧ (∀ k, iterSeq d k = iterSeq d (k % d.data.length))
    ∧ (∀ k, iterSeq d (k + d.data.length) = iterSeq d k) := by
  have hp := iterPass_eq_rowsOf d hn hpos htgt
  have hlen : (iterPass d).length = d.data.length := by
    rw [hp]
    unfold rowsOf
    cases hT : d.target with
    | none => simp
    | some t =>
      have ht := htgt t hT
      simp [List.length_zip, ht]
  refine ⟨hp, hlen, ?_, ?_⟩
  · intro k
    unfold iterSeq
    rw [hlen]
    simp
  · intro k
    unfold iterSeq
    rw [hlen, Nat.add_mod_right]

/-- Witness for C9: a three-row dataset with targets. -/
theorem iter_cycles_witness :
    (⟨⟨"Default", 3, [3], ""⟩, [[0], [1], [2]], some [[9], [8], [7]]⟩ :
        Dataset).meta_data.nb_examples
      = (⟨⟨"Default", 3, [3], ""⟩, [[0], [1], [2]], some [[9], [8], [7]]⟩ :
        Dataset).data.length
    ∧ 0 < (⟨⟨"Default", 3, [3], ""⟩, [[0], [1], [2]], some [[9], [8], [7]]⟩ :
        Dataset).data.length
    ∧ (∀ t, (⟨⟨"Default", 3, [3], ""⟩, [[0], [1], [2]], some [[9], [8], [7]]⟩ :
        Dataset).target = some t
        → t.length = (⟨⟨"Default", 3, [3], ""⟩, [[0], [1], [2]],
            some [[9], [8], [7]]⟩ : Dataset).data.length)
    ∧ (iterPass ⟨⟨"Default", 3, [3], ""⟩, [[0], [1], [2]], some [[9], [8], [7]]⟩
        = rowsOf ⟨⟨"Default", 3, [3], ""⟩, [[0], [1], [2]], some [[9], [8], [7]]⟩
      ∧ (iterPass ⟨⟨"Default", 3, [3], ""⟩, [[0], [1], [2]],
            some [[9], [8], [7]]⟩).length = 3
      ∧ (∀ k, iterSeq ⟨⟨"Default", 3, [3], ""⟩, [[0], [1], [2]],
            some [[9], [8], [7]]⟩ k
          = iterSeq ⟨⟨"Default", 3, [3], ""⟩, [[0], [1], [2]],
            some [[9], [8], [7]]⟩ (k % 3))
      ∧ (∀ k, iterSeq ⟨⟨"Default", 3, [3], ""⟩, [[0], [1], [2]],
            some [[9], [8], [7]]⟩ (k + 3)
          = iterSeq ⟨⟨"Default", 3, [3], ""⟩, [[0], [1], [2]],
            some [[9], [8], [7]]⟩ k)) := by
  have ht : ∀ t, (⟨⟨"Default", 3, [3], ""⟩, [[0], [1], [2]],
      some [[9], [8], [7]]⟩ : Dataset).target = some t
      → t.length = (⟨⟨"Default", 3, [3], ""⟩, [[0], [1], [2]],
          some [[9], [8], [7]]⟩ : Dataset).data.length := by
    intro t h
    injection h with h2
    subst h2
    rfl
  exact ⟨rfl, by decide, ht,
    iter_cycles ⟨⟨"Default", 3, [3], ""⟩, [[0], [1], [2]], some [[9], [8], [7]]⟩
      rfl (by decide) ht⟩

/-- Concatenating a contiguous cover of `[a, m)` with one of `[m, b)` covers
`[a, b)`. -/
theorem chainHolds_append :
    ∀ (l1 : List (Nat × Nat)) (a m b : Nat) (l2 : List (Nat × Nat)),
      m ≤ b → chainHolds a m l1 = true → chainHolds m b l2 = true →
      chainHolds a b (l1 ++ l2) = true := by
  intro l1
  induction l1 with
  | nil =>
    intro a m b l2 hmb h1 h2
    simp only [chainHolds, beq_iff_eq] at h1
    subst h1
    simpa using h2
  | cons p r ih =>
    intro a m b l2 hmb h1 h2
    obtain ⟨i, j⟩ := p
    simp only [chainHolds, Bool.and_eq_true, beq_iff_eq, decide_eq_true_eq] at h1 ⊢
    exact ⟨⟨⟨h1.1.1.1, h1.1.1.2⟩, le_trans h1.1.2 hmb⟩,
      ih j m b l2 hmb h1.2 h2⟩

/-- The minibatch bounds of one chunk tile the chunk contiguously. -/
theorem chain_sliceBounds (step : Nat) (hs : 0 < step) :
    ∀ (n a b : Nat), b - a ≤ n → a ≤ b →
      chainHolds a b (sliceBounds a b step) = true := by
  intro n
  induction n with
  | zero =>
    intro a b h hab
    have he : a = b := by omega
    subst he
    unfold sliceBounds
    rw [pyRange_nil (le_refl a)]
    simp [chainHolds]
  | succ n ih =>
    intro a b h hab
    by_cases hlt : a < b
    · unfold sliceBounds
      rw [pyRange_cons hs hlt, List.map_cons]
      simp only [chainHolds, Bool.and_eq_true, beq_iff_eq, decide_eq_true_eq]
      refine ⟨⟨⟨trivial, by omega⟩, by omega⟩, ?_⟩
      rcases le_or_lt (a + step) b with hle | hgt
      · have hmin : min b (a + step) = a + step := by omega
        rw [hmin]
        exact ih (a + step) b (by omega) hle
      · have hmin : min b (a + step) = b := by omega
        rw [hmin, pyRange_nil (by omega)]
        simp [chainHolds]
    · have he : a = b := by omega
      subst he
      unfold sliceBounds
      rw [pyRange_nil (le_refl a)]
      simp [chainHolds]

/-- The chunked minibatch bounds tile `[a, e)` contiguously: chunks are
contiguous and each chunk is tiled by its minibatches. -/
theorem chain_chunked (mbs : Nat) (hmbs : 0 < mbs) (buf : Nat) (hbuf : 0 < buf) :
    ∀ (n a e : Nat), e - a ≤ n → a ≤ e →
      chainHolds a e ((pyRange a e buf).flatMap fun idx =>
        sliceBounds idx (min (idx + buf) e) mbs) = true := by
  intro n
  induction n with
  | zero =>
    intro a e h hae
    have he : a = e := by omega
    subst he
    rw [pyRange_nil (le_refl a)]
    simp [chainHolds]
  | succ n ih =>
    intro a e h hae
    by_cases hlt : a < e
    · rw [pyRange_cons hbuf hlt, List.flatMap_cons]
      apply chainHolds_append _ a (min (a + buf) e) e _ (by omega)
      · exact chain_sliceBounds mbs hmbs (min (a + buf) e - a) a
          (min (a + buf) e) (le_refl _) (by omega)
      · rcases le_or_lt (a + buf) e with hle | hgt
        · have hmin : min (a + buf) e = a + buf := by omega
          rw [hmin]
          exact ih (a + buf) e (by omega) hle
        · have hmin : min (a + buf) e = e := by omega
          rw [hmin, pyRange_nil (by omega)]
          simp [chainHolds]
    · have he : a = e := by omega
      subst he
      rw [pyRange_nil (le_refl a)]
      simp [chainHolds]

/-- `splitPass` written through `sliceBounds`. -/
theorem splitPass_eq_chunked (start e mbs : Nat) :
    splitPass start e mbs
      = (pyRange start e (min BUFFER_SIZE (e - start))).flatMap fun idx =>
          sliceBounds idx (min (idx + min BUFFER_SIZE (e - start)) e) mbs := rfl

/-- One pass of `_split_iterators` tiles `[start, e)` contiguously and in
row order. -/
theorem chain_splitPass (start e mbs : Nat) (hse : start < e) (hmbs : 0 < mbs) :
    chainHolds start e (splitPass start e mbs) = true := by
  rw [splitPass_eq_chunked]
  have hbuf : 0 < min BUFFER_SIZE (e - start) := by
    unfold BUFFER_SIZE
    omega
  exact chain_chunked mbs hmbs _ hbuf (e - start) start e (le_refl _) (by omega)

/-- Every minibatch of a pass spans at most `minibatch_size` rows. -/
theorem splitPass_size_le (start e mbs : Nat) :
    ∀ p ∈ splitPass start e mbs, p.2 - p.1 ≤ mbs := by
  intro p hp
  unfold splitPass at hp
  rw [List.mem_flatMap] at hp
  obtain ⟨idx, _, hpm⟩ := hp
  rw [List.mem_map] at hpm
  obtain ⟨i, _, rfl⟩ := hpm
  have hmin := Nat.min_le_right (min (idx + min BUFFER_SIZE (e - start)) e) (i + mbs)
  simp only
  omega

/-- A nonempty split has a nonempty pass. -/
theorem splitPass_ne_nil (start e mbs : Nat) (hse : start < e) (hmbs : 0 < mbs) :
    splitPass start e mbs ≠ [] := by
  intro h
  have hc := chain_splitPass start e mbs hse hmbs
  rw [h] at hc
  simp only [chainHolds, beq_iff_eq] at hc
  omega

/-- C5: a split iterator over a nonempty `[start, e)` cycles indefinitely:
the pass of yielded minibatch bounds is nonempty, tiles `[start, e)` in row
order with at most `minibatch_size` rows each, the k-th pull is defined for
every `k` and repeats with period the pass length, and the pull right after
one full pass is the first minibatch again, which begins at row `start`. -/
theorem split_iterator_cycles (start e mbs : Nat) (hse : start < e)
    (hmbs : 0 < mbs) :
    splitPass start e mbs ≠ []
    ∧ chainHolds start e (splitPass start e mbs) = true
    ∧ (∀ p ∈ splitPass start e mbs, p.2 - p.1 ≤ mbs)
    ∧ (∀ k, splitIterBounds start e mbs (k + (splitPass start e mbs).length)
          = splitIterBounds start e mbs k)
    ∧ splitIterBounds start e mbs (splitPass start e mbs).length
        = splitIterBounds start e mbs 0
    ∧ (splitIterBounds start e mbs (splitPass start e mbs).length).1 = start
    ∧ (∀ (d : Dataset) (k : Nat),
        splitIter d start e mbs (k + (splitPass start e mbs).length)
          = splitIter d start e mbs k) := by
  have hne := splitPass_ne_nil start e mbs hse hmbs
  have hc := chain_splitPass start e mbs hse hmbs
  have hcyc : ∀ k, splitIterBounds start e mbs (k + (splitPass start e mbs).length)
      = splitIterBounds start e mbs k := by
    intro k
    unfold splitIterBounds
    rw [Nat.add_mod_right]
  have h0 : splitIterBounds start e mbs (splitPass start e mbs).length
      = splitIterBounds start e mbs 0 := by
    have hk := hcyc 0
    simpa using hk
  have hfst : (splitIterBounds start e mbs (splitPass start e mbs).length).1
      = start := by
    rw [h0]
    unfold splitIterBounds
    rw [Nat.zero_mod]
    cases hp : splitPass start e mbs with
    | nil => exact absurd hp hne
    | cons q r =>
      obtain ⟨i, j⟩ := q
      rw [hp] at hc
      simp only [chainHolds, Bool.and_eq_true, beq_iff_eq, decide_eq_true_eq] at hc
      simpa using hc.1.1.1
  refine ⟨hne, hc, splitPass_size_le start e mbs, hcyc, h0, hfst, ?_⟩
  intro d k
  unfold splitIter
  rw [hcyc k]

/-- Witness for C5: the split `[0, 5)` with minibatch size 2. -/
theorem split_iterator_cycles_witness :
    (0 : Nat) < 5 ∧ (0 : Nat) < 2
    ∧ (splitPass 0 5 2 ≠ []
      ∧ chainHolds 0 5 (splitPass 0 5 2) = true
      ∧ (∀ p ∈ splitPass 0 5 2, p.2 - p.1 ≤ 2)
      ∧ (∀ k, splitIterBounds 0 5 2 (k + (splitPass 0 5 2).length)
            = splitIterBounds 0 5 2 k)
      ∧ splitIterBounds 0 5 2 (splitPass 0 5 2).length = splitIterBounds 0 5 2 0
      ∧ (splitIterBounds 0 5 2 (splitPass 0 5 2).length).1 = 0
      ∧ (∀ (d : Dataset) (k : Nat),
          splitIter d 0 5 2 (k + (splitPass 0 5 2).length) = splitIter d 0 5 2 k)) :=
  ⟨by decide, by decide, split_iterator_cycles 0 5 2 (by decide) (by decide)⟩

/-- `n` distinct one-entry rows. -/
def mkRows (n : Nat) : Data := (List.range n).map (fun i => [(i : Int)])

/-- C4: on a 30-row dataset, splits declared as per-split counts
`(10, 10, 10)` and as cumulative offsets `(10, 20, 30)` give identical
iterators over `[0, 10)`, `[10, 20)`, `[20, 30)` (each pass tiling its
range); counts are converted by running sum exactly when their sum equals
the dataset length, and `get_splits_iterators` fails with the assertion
when the final normalized value differs from the length. -/
theorem splits_normalization :
    get_splits_iterators ⟨⟨"Default", 30, [10, 10, 10], ""⟩, mkRows 30, none⟩
        = .ok [(0, 10), (10, 20), (20, 30)]
    ∧ get_splits_iterators ⟨⟨"Default", 30, [10, 20, 30], ""⟩, mkRows 30, none⟩
        = .ok [(0, 10), (10, 20), (20, 30)]
    ∧ get_splits_iterators ⟨⟨"Default", 30, [10, 10, 10], ""⟩, mkRows 30, none⟩
        = get_splits_iterators ⟨⟨"Default", 30, [10, 20, 30], ""⟩, mkRows 30, none⟩
    ∧ chainHolds 0 10 (splitPass 0 10 1) = true
    ∧ chainHolds 10 20 (splitPass 10 20 1) = true
    ∧ chainHolds 20 30 (splitPass 20 30 1) = true
    ∧ (∀ (sp : List Nat) (len : Nat), sp.sum = len →
        normalizeSplits sp len = accumulate sp)
    ∧ (∀ (sp : List Nat) (len : Nat), sp.sum ≠ len →
        normalizeSplits sp len = sp)
    ∧ (∀ (d : Dataset) (last : Nat),
        (normalizeSplits d.meta_data.splits (dlength d)).getLast? = some last →
        last ≠ dlength d →
        get_splits_iterators d = .error .assertSplits) := by
  refine ⟨rfl, rfl, rfl, by decide, by decide, by decide, ?_, ?_, ?_⟩
  · intro sp len h
    unfold normalizeSplits
    rw [if_pos h]
  · intro sp len h
    unfold normalizeSplits
    rw [if_neg h]
  · intro d last hl hne
    simp only [get_splits_iterators, hl]
    rw [if_neg hne]

/-- A metadata record name and a blob name never coincide: they end in
different extensions. -/
theorem meta_name_ne_blob_name (a b : String) : a ++ ".meta" ≠ b ++ ".data" := by
  intro h
  have hd := congrArg String.data h
  rw [String.data_append, String.data_append] at hd
  have h2 := (List.append_inj' hd rfl).2
  simp at h2

/-- The directory seen by `save` right after the index step is the
directory the name had before (a fresh empty one when none existed). -/
theorem getDir_ensure (s : Store) (name : String) :
    getDir (if dataset_exists s name then s else add_dataset s name) name
      = (alookup s.dirs name).getD [] := by
  by_cases h : dataset_exists s name
  · rw [if_pos h]
    rfl
  · rw [if_neg h]
    unfold getDir add_dataset
    cases hl : alookup s.dirs name with
    | some dir => simp [hl]
    | none => simp [alookup, hl]

/-- After `save`, the saved name is in the index. -/
theorem dataset_exists_save (digest : List Row → String) (s : Store)
    (d : Dataset) (v : String) :
    dataset_exists (save digest s d v) d.meta_data.name = true := by
  unfold save
  by_cases hc : dataset_exists s d.meta_data.name
  · simp only [if_pos hc]
    exact hc
  · simp only [if_neg hc]
    unfold dataset_exists add_dataset
    simp

/-- The directory entry `save` leaves for the saved name. -/
theorem alookup_dirs_save (digest : List Row → String) (s : Store)
    (d : Dataset) (v : String) :
    alookup (save digest s d v).dirs d.meta_data.name
      = some (saveMetadataFile { d.meta_data with hash := datasetHash digest d }
          (saveDatasetFile
            ⟨{ d.meta_data with hash := datasetHash digest d }, d.data, d.target⟩
            ((alookup s.dirs d.meta_data.name).getD [])
            (datasetHash digest d ++ ".data"))
          (d.meta_data.name ++ "_" ++ v ++ ".meta")) := by
  unfold save
  dsimp only
  rw [getDir_ensure]
  simp [alookup]

/-- The directory of the saved name after `save`. -/
theorem getDir_save (digest : List Row → String) (s : Store) (d : Dataset)
    (v : String) :
    getDir (save digest s d v) d.meta_data.name
      = saveMetadataFile { d.meta_data with hash := datasetHash digest d }
          (saveDatasetFile
            ⟨{ d.meta_data with hash := datasetHash digest d }, d.data, d.target⟩
            ((alookup s.dirs d.meta_data.name).getD [])
            (datasetHash digest d ++ ".data"))
          (d.meta_data.name ++ "_" ++ v ++ ".meta") := by
  unfold getDir
  rw [alookup_dirs_save]
  rfl

/-- `_save_dataset` never changes an existing file. -/
theorem saveDatasetFile_preserves (d : Dataset) (dir : Dir) (g fname : String)
    (c : FileContent) (hc : alookup dir fname = some c) :
    alookup (saveDatasetFile d dir g) fname = some c := by
  unfold saveDatasetFile
  cases hg : alookup dir g with
  | some _ => exact hc
  | none =>
    have hne : ¬(g = fname) := by
      intro he
      rw [he, hc] at hg
      cases hg
    simp [alookup, hne, hc]

/-- `_save_metadata` never changes an existing file. -/
theorem saveMetadataFile_preserves (md : Metadata) (dir : Dir)
    (g fname : String) (c : FileContent) (hc : alookup dir fname = some c) :
    alookup (saveMetadataFile md dir g) fname = some c := by
  unfold saveMetadataFile
  cases hg : alookup dir g with
  | some _ => exact hc
  | none =>
    have hne : ¬(g = fname) := by
      intro he
      rw [he, hc] at hg
      cases hg
    simp [alookup, hne, hc]

/-- The `Dataset` constructor checks ignore the `hash` field, so a dataset
valid for its metadata is valid for the hash-refreshed metadata. -/
theorem datasetInit_hash_update (md : Metadata) (x : String) (data : Data)
    (target : Option Data) (hlen : data.length = md.nb_examples) (last : Nat)
    (hlast : md.splits.getLast? = some last)
    (hok : data.length = last ∨ data.length = md.splits.sum) :
    datasetInit { md with hash := x } data target
      = .ok ⟨{ md with hash := x }, data, target⟩ := by
  unfold datasetInit
  dsimp only
  rw [if_pos hlen, hlast]
  exact if_pos hok

/-- Reading back from a directory whose head is the metadata record and
which resolves the recorded hash to a blob. -/
theorem loadFromFile_prepared (dir1 : Dir) (md : Metadata) (base : String)
    (data : Data) (target : Option Data)
    (hblob1 : alookup dir1 (md.hash ++ ".data") = some (.blob data target))
    (hne : ¬(base ++ ".meta" = md.hash ++ ".data")) :
    loadFromFile ((base ++ ".meta", FileContent.meta md) :: dir1) base
      = (datasetInit md data target).mapError .initError := by
  unfold loadFromFile
  simp [alookup, hne, hblob1]

set_option maxHeartbeats 1600000 in
/-- C3 amended: `save(d, v)` followed by `load(name, v)` returns the
dataset back — same content hash, same `name`, `splits` and `nb_examples` —
provided the directory held no record `<name>_<v>.meta` beforehand (else
`_save_metadata` silently keeps the stale record) and the blob slot
`<hash>.data` was either free or already carried exactly this content. -/
theorem save_load_roundtrip (digest : List Row → String) (s : Store)
    (d : Dataset) (version : String) (last : Nat)
    (hlen : d.data.length = d.meta_data.nb_examples)
    (hlast : d.meta_data.splits.getLast? = some last)
    (hok : d.data.length = last ∨ d.data.length = d.meta_data.splits.sum)
    (hmeta : alookup ((alookup s.dirs d.meta_data.name).getD [])
        (d.meta_data.name ++ "_" ++ version ++ ".meta") = none)
    (hblob : alookup ((alookup s.dirs d.meta_data.name).getD [])
          (datasetHash digest d ++ ".data") = none
        ∨ alookup ((alookup s.dirs d.meta_data.name).getD [])
          (datasetHash digest d ++ ".data")
          = some (.blob d.data d.target)) :
    load (save digest s d version) d.meta_data.name version
        = .ok ⟨{ d.meta_data with hash := datasetHash digest d }, d.data, d.target⟩
    ∧ datasetHash digest
        ⟨{ d.meta_data with hash := datasetHash digest d }, d.data, d.target⟩
        = datasetHash digest d
    ∧ ({ d.meta_data with hash := datasetHash digest d } : Metadata).name
        = d.meta_data.name
    ∧ ({ d.meta_data with hash := datasetHash digest d } : Metadata).splits
        = d.meta_data.splits
    ∧ ({ d.meta_data with hash := datasetHash digest d } : Metadata).nb_examples
        = d.meta_data.nb_examples := by
  refine ⟨?_, by simp [datasetHash, hashStream], rfl, rfl, rfl⟩
  unfold load
  rw [if_pos (dataset_exists_save digest s d version)]
  rw [getDir_save]
  revert hblob
  generalize datasetHash digest d = h0
  intro hblob
  rcases hblob with hb | hb
  · have hdir1 : saveDatasetFile
        ⟨{ d.meta_data with hash := h0 }, d.data, d.target⟩
        ((alookup s.dirs d.meta_data.name).getD [])
        (h0 ++ ".data")
        = (h0 ++ ".data", FileContent.blob d.data d.target)
            :: (alookup s.dirs d.meta_data.name).getD [] := by
      unfold saveDatasetFile
      rw [hb]
    rw [hdir1]
    have hm1 : alookup
        ((h0 ++ ".data", FileContent.blob d.data d.target)
          :: (alookup s.dirs d.meta_data.name).getD [])
        (d.meta_data.name ++ "_" ++ version ++ ".meta") = none := by
      simp only [alookup]
      rw [if_neg]
      · exact hmeta
      · intro he
        exact meta_name_ne_blob_name (d.meta_data.name ++ "_" ++ version)
          h0 he.symm
    have hdir2 : saveMetadataFile { d.meta_data with hash := h0 }
        ((h0 ++ ".data", FileContent.blob d.data d.target)
          :: (alookup s.dirs d.meta_data.name).getD [])
        (d.meta_data.name ++ "_" ++ version ++ ".meta")
        = (d.meta_data.name ++ "_" ++ version ++ ".meta",
            FileContent.meta { d.meta_data with hash := h0 })
          :: (h0 ++ ".data", FileContent.blob d.data d.target)
          :: (alookup s.dirs d.meta_data.name).getD [] := by
      unfold saveMetadataFile
      rw [hm1]
    rw [hdir2]
    have hload := loadFromFile_prepared
        ((h0 ++ ".data", FileContent.blob d.data d.target)
          :: (alookup s.dirs d.meta_data.name).getD [])
        { d.meta_data with hash := h0 }
        (d.meta_data.name ++ "_" ++ version) d.data d.target
        (by simp [alookup])
        (meta_name_ne_blob_name (d.meta_data.name ++ "_" ++ version) h0)
    rw [hload]
    rw [datasetInit_hash_update d.meta_data h0 d.data
      d.target hlen last hlast hok]
    rfl
  · have hdir1 : saveDatasetFile
        ⟨{ d.meta_data with hash := h0 }, d.data, d.target⟩
        ((alookup s.dirs d.meta_data.name).getD [])
        (h0 ++ ".data")
        = (alookup s.dirs d.meta_data.name).getD [] := by
      unfold saveDatasetFile
      rw [hb]
    rw [hdir1]
    have hdir2 : saveMetadataFile { d.meta_data with hash := h0 }
        ((alookup s.dirs d.meta_data.name).getD [])
        (d.meta_data.name ++ "_" ++ version ++ ".meta")
        = (d.meta_data.name ++ "_" ++ version ++ ".meta",
            FileContent.meta { d.meta_data with hash := h0 })
          :: (alookup s.dirs d.meta_data.name).getD [] := by
      unfold saveMetadataFile
      rw [hmeta]
    rw [hdir2]
    have hload := loadFromFile_prepared
        ((alookup s.dirs d.meta_data.name).getD [])
        { d.meta_data with hash := h0 }
        (d.meta_data.name ++ "_" ++ version) d.data d.target hb
        (meta_name_ne_blob_name (d.meta_data.name ++ "_" ++ version) h0)
    rw [hload]
    rw [datasetInit_hash_update d.meta_data h0 d.data
      d.target hlen last hlast hok]
    rfl

/-- C3 counterexample: in a store already holding a `ds_v1.meta` record,
`save` does not overwrite it, so `load` after `save` returns the stale
dataset: different `nb_examples`, different `splits`, different content
hash than the dataset just saved — refuting the unconditional round-trip
claim. -/
theorem stale_metadata_breaks_roundtrip :
    load (save toyDigest exStoreOld exDataset2 "v1") "ds" "v1"
      = .ok ⟨⟨"ds", 1, [1], "oldhash"⟩, [[0]], none⟩
    ∧ (⟨⟨"ds", 1, [1], "oldhash"⟩, [[0]], none⟩ : Dataset).meta_data.nb_examples
        ≠ exDataset2.meta_data.nb_examples
    ∧ (⟨⟨"ds", 1, [1], "oldhash"⟩, [[0]], none⟩ : Dataset).meta_data.splits
        ≠ exDataset2.meta_data.splits
    ∧ datasetHash toyDigest ⟨⟨"ds", 1, [1], "oldhash"⟩, [[0]], none⟩
        ≠ datasetHash toyDigest exDataset2 := by
  refine ⟨rfl, by decide, by decide, by decide⟩

/-- Witness for the amended C3: saving a fresh dataset into an empty store
and loading it back. -/
theorem save_load_roundtrip_witness :
    exDataset2.data.length = exDataset2.meta_data.nb_examples
    ∧ exDataset2.meta_data.splits.getLast? = some 2
    ∧ (exDataset2.data.length = 2
        ∨ exDataset2.data.length = exDataset2.meta_data.splits.sum)
    ∧ alookup ((alookup (⟨[], []⟩ : Store).dirs exDataset2.meta_data.name).getD [])
        (exDataset2.meta_data.name ++ "_" ++ "v1" ++ ".meta") = none
    ∧ (alookup ((alookup (⟨[], []⟩ : Store).dirs exDataset2.meta_data.name).getD [])
          (datasetHash toyDigest exDataset2 ++ ".data") = none
        ∨ alookup ((alookup (⟨[], []⟩ : Store).dirs exDataset2.meta_data.name).getD [])
          (datasetHash toyDigest exDataset2 ++ ".data")
          = some (.blob exDataset2.data exDataset2.target))
    ∧ (load (save toyDigest ⟨[], []⟩ exDataset2 "v1") exDataset2.meta_data.name "v1"
        = .ok ⟨{ exDataset2.meta_data with hash := datasetHash toyDigest exDataset2 },
            exDataset2.data, exDataset2.target⟩
      ∧ datasetHash toyDigest
          ⟨{ exDataset2.meta_data with hash := datasetHash toyDigest exDataset2 },
            exDataset2.data, exDataset2.target⟩
          = datasetHash toyDigest exDataset2
      ∧ ({ exDataset2.meta_data with hash := datasetHash toyDigest exDataset2 } :
            Metadata).name = exDataset2.meta_data.name
      ∧ ({ exDataset2.meta_data with hash := datasetHash toyDigest exDataset2 } :
            Metadata).splits = exDataset2.meta_data.splits
      ∧ ({ exDataset2.meta_data with hash := datasetHash toyDigest exDataset2 } :
            Metadata).nb_examples = exDataset2.meta_data.nb_examples) :=
  ⟨rfl, rfl, Or.inl rfl, rfl, Or.inl rfl,
    save_load_roundtrip toyDigest ⟨[], []⟩ exDataset2 "v1" 2 rfl rfl
      (Or.inl rfl) rfl (Or.inl rfl)⟩

/-- Writing a metadata record never changes the number of blobs. -/
theorem blobCount_saveMetadataFile (md : Metadata) (dir : Dir) (f : String) :
    blobCount (saveMetadataFile md dir f) = blobCount dir := by
  unfold saveMetadataFile
  cases h : alookup dir f with
  | some _ => rfl
  | none => simp [blobCount, List.countP_cons]

/-- `_save_dataset` skips the write when the blob name is taken. -/
theorem saveDatasetFile_present (d : Dataset) (dir : Dir) (f : String)
    (c : FileContent) (h : alookup dir f = some c) :
    saveDatasetFile d dir f = dir := by
  unfold saveDatasetFile
  rw [h]

/-- C7: blobs are write-once and deduplicated by hash. Saving two datasets
with identical data and target (hence identical hash) under one name and
two version names, starting from a name with no directory, leaves exactly
one blob in the directory; and `save` never changes the content of any file
already present in the directory of the saved name. -/
theorem blob_dedup (digest : List Row → String) (s : Store) (d1 d2 : Dataset)
    (v1 v2 : String) (hdata : d1.data = d2.data) (htgt : d1.target = d2.target)
    (hname : d1.meta_data.name = d2.meta_data.name)
    (hfresh : alookup s.dirs d1.meta_data.name = none) :
    blobCount (getDir (save digest (save digest s d1 v1) d2 v2)
        d2.meta_data.name) = 1
    ∧ (∀ (s2 : Store) (d : Dataset) (v fname : String) (c : FileContent),
        alookup (getDir s2 d.meta_data.name) fname = some c →
        alookup (getDir (save digest s2 d v) d.meta_data.name) fname = some c) := by
  constructor
  · have hh : datasetHash digest d2 = datasetHash digest d1 := by
      simp [datasetHash, hashStream, hdata, htgt]
    rw [getDir_save, blobCount_saveMetadataFile, ← hname, hh,
      alookup_dirs_save digest s d1 v1]
    simp only [Option.getD]
    rw [hfresh]
    simp only [Option.getD]
    revert hfresh
    generalize datasetHash digest d1 = h0
    intro hfresh
    have e1 : saveDatasetFile ⟨{ d1.meta_data with hash := h0 }, d1.data, d1.target⟩
        [] (h0 ++ ".data")
        = [(h0 ++ ".data", FileContent.blob d1.data d1.target)] := rfl
    rw [e1]
    have e2 : saveMetadataFile { d1.meta_data with hash := h0 }
        [(h0 ++ ".data", FileContent.blob d1.data d1.target)]
        (d1.meta_data.name ++ "_" ++ v1 ++ ".meta")
        = [(d1.meta_data.name ++ "_" ++ v1 ++ ".meta",
            FileContent.meta { d1.meta_data with hash := h0 }),
           (h0 ++ ".data", FileContent.blob d1.data d1.target)] := by
      unfold saveMetadataFile
      have hl : alookup [(h0 ++ ".data", FileContent.blob d1.data d1.target)]
          (d1.meta_data.name ++ "_" ++ v1 ++ ".meta") = none := by
        have hne1 : ¬(h0 ++ ".data" = d1.meta_data.name ++ "_" ++ v1 ++ ".meta") := by
          intro he
          exact meta_name_ne_blob_name (d1.meta_data.name ++ "_" ++ v1) h0 he.symm
        simp only [alookup]
        rw [if_neg hne1]
      rw [hl]
    rw [e2]
    have e3 : alookup [(d1.meta_data.name ++ "_" ++ v1 ++ ".meta",
          FileContent.meta { d1.meta_data with hash := h0 }),
        (h0 ++ ".data", FileContent.blob d1.data d1.target)] (h0 ++ ".data")
        = some (FileContent.blob d1.data d1.target) := by
      have hne2 : ¬(d1.meta_data.name ++ "_" ++ v1 ++ ".meta" = h0 ++ ".data") :=
        meta_name_ne_blob_name (d1.meta_data.name ++ "_" ++ v1) h0
      simp only [alookup]
      rw [if_neg hne2]
      simp
    rw [saveDatasetFile_present _ _ _ _ e3]
    simp [blobCount, List.countP_cons]
  · intro s2 d v fname c hc
    rw [getDir_save]
    generalize datasetHash digest d = h0
    apply saveMetadataFile_preserves
    apply saveDatasetFile_preserves
    exact hc

/-- A second dataset with the same name and content as `exDataset2` but
different metadata. -/
def exDataset2b : Dataset := ⟨⟨"ds", 2, [1, 1], "xyz"⟩, [[1], [2]], none⟩

/-- Witness for C7: two saves of identical content into an empty store. -/
theorem blob_dedup_witness :
    exDataset2.data = exDataset2b.data
    ∧ exDataset2.target = exDataset2b.target
    ∧ exDataset2.meta_data.name = exDataset2b.meta_data.name
    ∧ alookup (⟨[], []⟩ : Store).dirs exDataset2.meta_data.name = none
    ∧ (blobCount (getDir (save toyDigest (save toyDigest ⟨[], []⟩ exDataset2 "v1")
          exDataset2b "v2") exDataset2b.meta_data.name) = 1
      ∧ (∀ (s2 : Store) (d : Dataset) (v fname : String) (c : FileContent),
          alookup (getDir s2 d.meta_data.name) fname = some c →
          alookup (getDir (save toyDigest s2 d v) d.meta_data.name) fname
            = some c)) :=
  ⟨rfl, rfl, rfl, rfl,
    blob_dedup toyDigest ⟨[], []⟩ exDataset2 exDataset2b "v1" "v2" rfl rfl rfl rfl⟩

end MLData
